import Mathlib

/-!
Verification of the Niven-Jazz segmentation engine and lifecycle layer.

The development shallowly embeds the program's core functions:
* `src/lib/split.js` : `splitIntoTracks` (silence sweep, track export loop,
  intro-trim handling, zero-silence special case) and `processSides`;
* the cleanup module (`isTracksOutputValid`, `checkSkipStatus`,
  `moveToTrash`, `purgeTrash`, `maybeCleanupItem`).

Times and durations are modelled as rationals (the source uses JS numbers on
values parsed from ffmpeg logs); external-process outcomes (ffmpeg/ffprobe
invocations) are supplied as explicit environment records, and the filesystem
is modelled as a list of subtree roots with their total recursive sizes.
-/

namespace NivenJazz

/-- A silence interval as parsed from the ffmpeg log: `{start, end}` seconds.
The JS objects also carry `duration = end - start`, which the segment sweep
never reads, so it is omitted here.  `end` is a Lean keyword, so the field is
named `stop`. -/
structure SilenceInterval where
  start : ℚ
  stop : ℚ
  deriving Repr, DecidableEq

/-- A kept segment `{start, end, duration}` (`end` rendered as `stop`). -/
structure Segment where
  start : ℚ
  stop : ℚ
  duration : ℚ
  deriving Repr, DecidableEq

/-- One iteration of the segment-building loop of `splitIntoTracks`
(`split.js` lines 103-111): the accumulator is the pair
`(segments, lastEnd)`. -/
def buildSegmentsStep (minSegment : ℚ) (acc : List Segment × ℚ)
    (silence : SilenceInterval) : List Segment × ℚ :=
  let segments := acc.1
  let lastEnd := acc.2
  let segments' :=
    if silence.start > lastEnd then
      let duration := silence.start - lastEnd
      if duration ≥ minSegment then
        segments ++ [⟨lastEnd, silence.start, duration⟩]
      else segments
    else segments
  (segments', silence.stop)

/-- The segment construction of `splitIntoTracks` (`split.js` lines 99-121):
the loop over the silences followed by the trailing-segment test against the
probed total duration. -/
def buildSegments (silences : List SilenceInterval) (totalDuration minSegment : ℚ) :
    List Segment :=
  let r := silences.foldl (buildSegmentsStep minSegment) ([], 0)
  let segments := r.1
  let lastEnd := r.2
  if totalDuration > lastEnd then
    let duration := totalDuration - lastEnd
    if duration ≥ minSegment then
      segments ++ [⟨lastEnd, totalDuration, duration⟩]
    else segments
  else segments

/-- Modelled from the spec: the sweep described in §4.1 of the specification,
written as a structural recursion.  For each interval in order, when
`interval.start > lastEnd` the candidate `[lastEnd, interval.start)` is kept
iff its duration is at least `minSegment`, and `lastEnd` becomes
`interval.end` regardless.  Returns the kept segments together with the final
`lastEnd`. -/
def sweep (minSegment : ℚ) (lastEnd : ℚ) :
    List SilenceInterval → List Segment × ℚ
  | [] => ([], lastEnd)
  | s :: rest =>
    let head :=
      if lastEnd < s.start ∧ minSegment ≤ s.start - lastEnd then
        [Segment.mk lastEnd s.start (s.start - lastEnd)]
      else []
    let r := sweep minSegment s.stop rest
    (head ++ r.1, r.2)

/-- Modelled from the spec: the full Silence-to-Segment Converter of §4.1,
the sweep followed by the keep-or-drop test on the trailing segment
`[lastEnd, totalDuration)`. -/
def converterSpec (silences : List SilenceInterval)
    (totalDuration minSegment : ℚ) : List Segment :=
  let r := sweep minSegment 0 silences
  if r.2 < totalDuration ∧ minSegment ≤ totalDuration - r.2 then
    r.1 ++ [Segment.mk r.2 totalDuration (totalDuration - r.2)]
  else r.1

/-- Every interval is well formed: its start does not exceed its end. -/
def wellFormed (l : List SilenceInterval) : Bool :=
  l.all (fun s => decide (s.start ≤ s.stop))

/-- The list is sorted by start and non-overlapping: each interval ends no
later than the next one starts. -/
def nonOverlapping : List SilenceInterval → Bool
  | [] => true
  | [_] => true
  | s :: t :: rest => decide (s.stop ≤ t.start) && nonOverlapping (t :: rest)

/-- All intervals carry non-negative timestamps (the source parses them from
the `[\d.]+` groups of the ffmpeg log, which cannot be negative). -/
def nonnegStarts (l : List SilenceInterval) : Bool :=
  l.all (fun s => decide (0 ≤ s.start))

example : buildSegments [⟨10, 11⟩, ⟨45, 46⟩] 60 20 = [⟨11, 45, 34⟩] := by
  norm_num [buildSegments, buildSegmentsStep]

theorem sweep_nil (m le : ℚ) : sweep m le [] = ([], le) := rfl

theorem sweep_cons (m le : ℚ) (s : SilenceInterval) (rest : List SilenceInterval) :
    sweep m le (s :: rest) =
      ((if le < s.start ∧ m ≤ s.start - le
        then [Segment.mk le s.start (s.start - le)] else []) ++ (sweep m s.stop rest).1,
       (sweep m s.stop rest).2) := by
  simp [sweep]

/-- The imperative loop of `splitIntoTracks` (a `foldl`) computes exactly the
recursive sweep of the specification. -/
theorem foldl_buildSegmentsStep_eq_sweep (m : ℚ) (l : List SilenceInterval) :
    ∀ (segs : List Segment) (le : ℚ),
      l.foldl (buildSegmentsStep m) (segs, le) =
        (segs ++ (sweep m le l).1, (sweep m le l).2) := by
  induction l with
  | nil => intro segs le; simp [sweep_nil]
  | cons s rest ih =>
    intro segs le
    rw [List.foldl_cons, sweep_cons]
    by_cases h1 : le < s.start
    · by_cases h2 : m ≤ s.start - le
      · rw [show buildSegmentsStep m (segs, le) s =
              (segs ++ [Segment.mk le s.start (s.start - le)], s.stop) by
            simp [buildSegmentsStep, h1, h2]]
        rw [ih]
        simp [h1, h2, List.append_assoc]
      · rw [show buildSegmentsStep m (segs, le) s = (segs, s.stop) by
            simp [buildSegmentsStep, h1, h2]]
        rw [ih]
        simp [h1, h2]
    · rw [show buildSegmentsStep m (segs, le) s = (segs, s.stop) by
          simp [buildSegmentsStep, h1]]
      rw [ih]
      simp [h1]

theorem nonOverlapping_tail {s : SilenceInterval} {rest : List SilenceInterval}
    (h : nonOverlapping (s :: rest) = true) : nonOverlapping rest = true := by
  cases rest with
  | nil => rfl
  | cons t r =>
    have := h
    simp only [nonOverlapping, Bool.and_eq_true] at this
    exact this.2

theorem nonOverlapping_head {s t : SilenceInterval} {rest : List SilenceInterval}
    (h : nonOverlapping (s :: t :: rest) = true) : s.stop ≤ t.start := by
  simp only [nonOverlapping, Bool.and_eq_true, decide_eq_true_eq] at h
  exact h.1

/-- Invariant of the sweep: assuming the silences are well formed, sorted and
non-overlapping, and every interval starts no earlier than the running
`lastEnd` allows, all produced segments pass the `minSegment` filter, are well
formed, start after `lastEnd`, end before the final `lastEnd`, and are
pairwise disjoint in order. -/
theorem sweep_invariant (m : ℚ) :
    ∀ (l : List SilenceInterval) (le : ℚ),
      wellFormed l = true → nonOverlapping l = true →
      (∀ t, l.head? = some t → le ≤ t.start) →
      (∀ seg ∈ (sweep m le l).1,
          m ≤ seg.duration ∧ seg.duration = seg.stop - seg.start ∧
          seg.start < seg.stop ∧ le ≤ seg.start ∧ seg.stop ≤ (sweep m le l).2) ∧
      List.Pairwise (fun a b => a.stop ≤ b.start) (sweep m le l).1 ∧
      le ≤ (sweep m le l).2 := by
  intro l
  induction l with
  | nil =>
    intro le _ _ _
    refine ⟨?_, ?_, le_refl le⟩ <;> simp [sweep_nil]
  | cons s rest ih =>
    intro le hwf hno hhd
    have hle_start : le ≤ s.start := hhd s rfl
    have hwf' : s.start ≤ s.stop ∧ wellFormed rest = true := by
      simp only [wellFormed, List.all_cons, Bool.and_eq_true, decide_eq_true_eq] at hwf ⊢
      exact hwf
    have hhd' : ∀ t, rest.head? = some t → s.stop ≤ t.start := by
      intro t ht
      cases rest with
      | nil => simp at ht
      | cons u r =>
        have hu : u = t := by simpa using ht
        subst hu
        exact nonOverlapping_head hno
    obtain ⟨ih1, ih2, ih3⟩ := ih s.stop hwf'.2 (nonOverlapping_tail hno) hhd'
    have hfin : s.stop ≤ (sweep m s.stop rest).2 := ih3
    rw [sweep_cons]
    refine ⟨?_, ?_, le_trans hle_start (le_trans hwf'.1 hfin)⟩
    · intro seg hseg
      rcases List.mem_append.mp hseg with hmem | hmem
      · by_cases hc : le < s.start ∧ m ≤ s.start - le
        · rw [if_pos hc] at hmem
          have hseg_eq : seg = Segment.mk le s.start (s.start - le) := by
            simpa using hmem
          subst hseg_eq
          exact ⟨hc.2, rfl, hc.1, le_refl le, le_trans hwf'.1 hfin⟩
        · rw [if_neg hc] at hmem
          simp at hmem
      · obtain ⟨d1, d2, d3, d4, d5⟩ := ih1 seg hmem
        exact ⟨d1, d2, d3, le_trans hle_start (le_trans hwf'.1 d4), d5⟩
    · refine List.pairwise_append.mpr ⟨?_, ih2, ?_⟩
      · by_cases hc : le < s.start ∧ m ≤ s.start - le
        · rw [if_pos hc]; simp
        · rw [if_neg hc]; simp
      · intro a ha b hb
        by_cases hc : le < s.start ∧ m ≤ s.start - le
        · rw [if_pos hc] at ha
          have ha_eq : a = Segment.mk le s.start (s.start - le) := by simpa using ha
          subst ha_eq
          exact le_trans hwf'.1 (ih1 b hb).2.2.2.1
        · rw [if_neg hc] at ha
          simp at ha

/-- The loop-and-trailing-test construction of the source equals the
converter described by the spec, on all inputs. -/
theorem buildSegments_eq_converterSpec (silences : List SilenceInterval)
    (totalDuration minSegment : ℚ) :
    buildSegments silences totalDuration minSegment =
      converterSpec silences totalDuration minSegment := by
  unfold buildSegments converterSpec
  rw [foldl_buildSegmentsStep_eq_sweep]
  by_cases h1 : (sweep minSegment 0 silences).2 < totalDuration
  · by_cases h2 : minSegment ≤ totalDuration - (sweep minSegment 0 silences).2
    · simp [h1, h2]
    · simp [h1, h2]
  · simp [h1]

theorem converterSpec_def (silences : List SilenceInterval) (totalDuration minSegment : ℚ) :
    converterSpec silences totalDuration minSegment =
      if (sweep minSegment 0 silences).2 < totalDuration ∧
          minSegment ≤ totalDuration - (sweep minSegment 0 silences).2 then
        (sweep minSegment 0 silences).1 ++
          [Segment.mk (sweep minSegment 0 silences).2 totalDuration
            (totalDuration - (sweep minSegment 0 silences).2)]
      else (sweep minSegment 0 silences).1 := rfl

/-- C1: for every sorted, non-overlapping silence list (with the
non-negative timestamps the ffmpeg log guarantees), the converter of
`splitIntoTracks` returns exactly the segments of the specified sweep;
every returned segment has duration at least `minSegment` and records
`duration = end - start`; the returned segments are pairwise disjoint and
sorted by start; and on silences `[{10,11},{45,46}]` with total duration 60
and `minSegment` 20, exactly the segment `[11,45]` of duration 34 is kept. -/
theorem claim_C1_silence_to_segment_converter
    (silences : List SilenceInterval) (totalDuration minSegment : ℚ)
    (hwf : wellFormed silences = true)
    (hno : nonOverlapping silences = true)
    (h0 : nonnegStarts silences = true) :
    buildSegments silences totalDuration minSegment =
      converterSpec silences totalDuration minSegment ∧
    (∀ seg ∈ buildSegments silences totalDuration minSegment,
        minSegment ≤ seg.duration ∧ seg.duration = seg.stop - seg.start ∧
        seg.start < seg.stop) ∧
    List.Pairwise (fun a b => a.stop ≤ b.start)
      (buildSegments silences totalDuration minSegment) ∧
    buildSegments [⟨10, 11⟩, ⟨45, 46⟩] 60 20 = [⟨11, 45, 34⟩] := by
  have hd0 : ∀ t, silences.head? = some t → (0 : ℚ) ≤ t.start := by
    intro t ht
    have hmem : t ∈ silences := by
      cases silences with
      | nil => simp at ht
      | cons u r =>
        have : u = t := by simpa using ht
        subst this
        exact List.mem_cons_self u r
    simp only [nonnegStarts, List.all_eq_true, decide_eq_true_eq] at h0
    exact h0 t hmem
  obtain ⟨inv1, inv2, -⟩ := sweep_invariant minSegment silences 0 hwf hno hd0
  have heq := buildSegments_eq_converterSpec silences totalDuration minSegment
  refine ⟨heq, ?_, ?_, by norm_num [buildSegments, buildSegmentsStep]⟩
  · rw [heq, converterSpec_def]
    by_cases hc : (sweep minSegment 0 silences).2 < totalDuration ∧
        minSegment ≤ totalDuration - (sweep minSegment 0 silences).2
    · rw [if_pos hc]
      intro seg hseg
      rcases List.mem_append.mp hseg with hmem | hmem
      · obtain ⟨d1, d2, d3, -, -⟩ := inv1 seg hmem
        exact ⟨d1, d2, d3⟩
      · have hseg_eq : seg = Segment.mk (sweep minSegment 0 silences).2 totalDuration
            (totalDuration - (sweep minSegment 0 silences).2) := by simpa using hmem
        subst hseg_eq
        exact ⟨hc.2, rfl, hc.1⟩
    · rw [if_neg hc]
      intro seg hseg
      obtain ⟨d1, d2, d3, -, -⟩ := inv1 seg hseg
      exact ⟨d1, d2, d3⟩
  · rw [heq, converterSpec_def]
    by_cases hc : (sweep minSegment 0 silences).2 < totalDuration ∧
        minSegment ≤ totalDuration - (sweep minSegment 0 silences).2
    · rw [if_pos hc]
      refine List.pairwise_append.mpr ⟨inv2, by simp, ?_⟩
      intro a ha b hb
      have hb_eq : b = Segment.mk (sweep minSegment 0 silences).2 totalDuration
          (totalDuration - (sweep minSegment 0 silences).2) := by simpa using hb
      subst hb_eq
      exact (inv1 a ha).2.2.2.2
    · rw [if_neg hc]
      exact inv2

/-- Witness for C1 at the spec's end-to-end example. -/
theorem claim_C1_silence_to_segment_converter_witness :
    wellFormed [⟨10, 11⟩, ⟨45, 46⟩] = true ∧
    nonOverlapping [⟨10, 11⟩, ⟨45, 46⟩] = true ∧
    nonnegStarts [⟨10, 11⟩, ⟨45, 46⟩] = true ∧
    (∀ seg ∈ buildSegments [⟨10, 11⟩, ⟨45, 46⟩] 60 20,
        (20 : ℚ) ≤ seg.duration ∧ seg.duration = seg.stop - seg.start ∧
        seg.start < seg.stop) ∧
    buildSegments [⟨10, 11⟩, ⟨45, 46⟩] 60 20 = [⟨11, 45, 34⟩] := by
  have h1 : wellFormed [(⟨10, 11⟩ : SilenceInterval), ⟨45, 46⟩] = true := by
    simp only [wellFormed, List.all_cons, List.all_nil, Bool.and_eq_true,
      decide_eq_true_eq]
    norm_num
  have h2 : nonOverlapping [(⟨10, 11⟩ : SilenceInterval), ⟨45, 46⟩] = true := by
    simp only [nonOverlapping, Bool.and_eq_true, decide_eq_true_eq]
    norm_num
  have h3 : nonnegStarts [(⟨10, 11⟩ : SilenceInterval), ⟨45, 46⟩] = true := by
    simp only [nonnegStarts, List.all_cons, List.all_nil, Bool.and_eq_true,
      decide_eq_true_eq]
    norm_num
  obtain ⟨-, hprops, -, hex⟩ :=
    claim_C1_silence_to_segment_converter [⟨10, 11⟩, ⟨45, 46⟩] 60 20 h1 h2 h3
  exact ⟨h1, h2, h3, hprops, hex⟩

/-! ### Track export loop (`split.js` lines 126-150) -/

/-- JS `String(n).padStart(3, '0')`. -/
def padStart3 (s : String) : String :=
  if s.length < 3 then String.mk (List.replicate (3 - s.length) '0') ++ s else s

/-- The track file name `track_${String(trackIndex).padStart(3, '0')}.mp3`. -/
def trackName (trackIndex : ℕ) : String :=
  "track_" ++ padStart3 (toString trackIndex) ++ ".mp3"

/-- One iteration of the export loop (`split.js` lines 129-143): on success
the produced path is appended and the counter advances, on failure neither
happens.  Whether the `ffmpeg` export invocation succeeds is supplied by the
`exportOk` oracle. -/
def exportTracksStep (outDir : String) (exportOk : Segment → Bool)
    (acc : List String × ℕ) (segment : Segment) : List String × ℕ :=
  let tracks := acc.1
  let trackIndex := acc.2
  let outputPath := outDir ++ "/" ++ trackName trackIndex
  if exportOk segment then (tracks ++ [outputPath], trackIndex + 1)
  else (tracks, trackIndex)

/-- The export loop of `splitIntoTracks`: `tracks = []`,
`trackIndex = startIndex`, then one `exportTracksStep` per segment. -/
def exportTracks (segments : List Segment) (outDir : String) (startIndex : ℕ)
    (exportOk : Segment → Bool) : List String × ℕ :=
  segments.foldl (exportTracksStep outDir exportOk) ([], startIndex)

/-- The list of paths `outDir/track_i.mp3, …, outDir/track_(i+n-1).mp3` for
`n` consecutive indices starting at `i`. -/
def expectedTracks (outDir : String) : ℕ → ℕ → List String
  | _, 0 => []
  | i, n + 1 => (outDir ++ "/" ++ trackName i) :: expectedTracks outDir (i + 1) n

theorem expectedTracks_length (outDir : String) :
    ∀ (n i : ℕ), (expectedTracks outDir i n).length = n := by
  intro n
  induction n with
  | zero => intro i; rfl
  | succ k ih => intro i; simp [expectedTracks, ih]

theorem expectedTracks_add (outDir : String) :
    ∀ (n i k : ℕ),
      expectedTracks outDir i n ++ expectedTracks outDir (i + n) k =
        expectedTracks outDir i (n + k) := by
  intro n
  induction n with
  | zero => intro i k; simp [expectedTracks]
  | succ j ih =>
    intro i k
    have harith : i + (j + 1) = (i + 1) + j := by omega
    simp only [expectedTracks, List.cons_append, harith, ih (i + 1) k]
    rw [show j + 1 + k = j + k + 1 by omega]
    rfl

/-- Characterization of the export loop: the produced tracks are exactly one
consecutive-numbered path per successfully exported segment, in segment
order, and the counter advances once per success. -/
theorem exportTracks_foldl (outDir : String) (exportOk : Segment → Bool)
    (l : List Segment) :
    ∀ (ts : List String) (i : ℕ),
      l.foldl (exportTracksStep outDir exportOk) (ts, i) =
        (ts ++ expectedTracks outDir i (l.countP exportOk),
         i + l.countP exportOk) := by
  induction l with
  | nil => intro ts i; simp [expectedTracks]
  | cons s rest ih =>
    intro ts i
    rw [List.foldl_cons]
    by_cases h : exportOk s
    · rw [show exportTracksStep outDir exportOk (ts, i) s =
            (ts ++ [outDir ++ "/" ++ trackName i], i + 1) by
          simp [exportTracksStep, h]]
      rw [ih, List.countP_cons, if_pos h]
      simp [expectedTracks]
      omega
    · rw [show exportTracksStep outDir exportOk (ts, i) s = (ts, i) by
          simp [exportTracksStep, h]]
      rw [ih, List.countP_cons, if_neg h]
      simp

theorem exportTracks_eq (segments : List Segment) (outDir : String)
    (startIndex : ℕ) (exportOk : Segment → Bool) :
    exportTracks segments outDir startIndex exportOk =
      (expectedTracks outDir startIndex (segments.countP exportOk),
       startIndex + segments.countP exportOk) := by
  unfold exportTracks
  rw [exportTracks_foldl]
  simp

/-- C2: failed exports are skipped without raising and without advancing the
counter: the result has exactly one consecutive-numbered path per successful
export in segment order, no index is reserved for a failed export, and
`nextIndex = startIndex + successfulExports = startIndex + tracks.length`. -/
theorem claim_C2_export_failure_skipped (segments : List Segment)
    (outDir : String) (startIndex : ℕ) (exportOk : Segment → Bool) :
    exportTracks segments outDir startIndex exportOk =
      (expectedTracks outDir startIndex (segments.countP exportOk),
       startIndex + segments.countP exportOk) ∧
    (exportTracks segments outDir startIndex exportOk).1.length =
      segments.countP exportOk ∧
    (exportTracks segments outDir startIndex exportOk).2 =
      startIndex + (exportTracks segments outDir startIndex exportOk).1.length := by
  have h := exportTracks_eq segments outDir startIndex exportOk
  refine ⟨h, ?_, ?_⟩ <;> rw [h] <;> simp [expectedTracks_length]

/-! ### `splitIntoTracks` (`split.js` lines 61-151) and `processSides`
(lines 160-180).

The external collaborators (ffmpeg/ffprobe subprocess invocations) are
supplied as an environment record: whether each invocation succeeds, the
parsed silence list, and the probed total duration. -/

/-- Outcomes of the external invocations made by one `splitIntoTracks` call. -/
structure SplitEnv where
  trimOk : Bool
  detectOk : Bool
  silences : List SilenceInterval
  copyOk : Bool
  probeOk : Bool
  totalDuration : ℚ
  exportOk : Segment → Bool

/-- The options object of `splitIntoTracks` with the source's defaults
(`split.js` lines 62-68). -/
structure SplitOptions where
  introTrimSec : ℚ := 0
  noiseDb : ℚ := -35
  minSilence : ℚ := 6 / 10
  minSegment : ℚ := 20
  startIndex : ℕ := 1

/-- Result of one `splitIntoTracks` call: the returned value or the
propagated error, plus whether a trimmed temporary working file remains on
disk after the call. -/
structure SplitOutcome where
  result : Except String (List String × ℕ)
  trimmedLeft : Bool

/-- `splitIntoTracks` from silence detection onwards (`split.js` lines
89-150).  `trimmed` records whether a trimmed working copy was created.  Note
that only the segment-export path (lines 126-150) reaches the temp-file
cleanup of lines 146-148: the zero-silence early return (line 96) and the
error propagations leave the trimmed file in place. -/
def splitDetect (env : SplitEnv) (outDir : String) (options : SplitOptions)
    (trimmed : Bool) : SplitOutcome :=
  if env.detectOk then
    if env.silences.isEmpty then
      if env.copyOk then
        { result := .ok ([outDir ++ "/" ++ trackName options.startIndex],
                         options.startIndex + 1),
          trimmedLeft := trimmed }
      else { result := .error "copy failed", trimmedLeft := trimmed }
    else
      if env.probeOk then
        let segments := buildSegments env.silences env.totalDuration options.minSegment
        { result := .ok (exportTracks segments outDir options.startIndex env.exportOk),
          trimmedLeft := false }
      else { result := .error "probe failed", trimmedLeft := trimmed }
  else { result := .error "Silence detection failed", trimmedLeft := trimmed }

/-- `splitIntoTracks` (`split.js` lines 61-151): the optional intro trim
(lines 73-86, fatal on failure), then detection, the zero-silence special
case, segment building, export, and cleanup. -/
def splitIntoTracks (env : SplitEnv) (inputPath outDir : String)
    (options : SplitOptions) : SplitOutcome :=
  if options.introTrimSec > 0 then
    if env.trimOk then splitDetect env outDir options true
    else { result := .error "Trim failed", trimmedLeft := false }
  else splitDetect env outDir options false

/-- Any successful `splitIntoTracks` call returns consecutive-numbered track
paths starting at its `startIndex`, and `nextIndex = startIndex + count`. -/
theorem splitIntoTracks_ok_shape (env : SplitEnv) (inputPath outDir : String)
    (options : SplitOptions) (ts : List String) (ni : ℕ)
    (h : (splitIntoTracks env inputPath outDir options).result = .ok (ts, ni)) :
    ∃ k, ts = expectedTracks outDir options.startIndex k ∧
      ni = options.startIndex + k := by
  have hcore : ∀ trimmed : Bool,
      (splitDetect env outDir options trimmed).result = .ok (ts, ni) →
      ∃ k, ts = expectedTracks outDir options.startIndex k ∧
        ni = options.startIndex + k := by
    intro trimmed hd
    unfold splitDetect at hd
    by_cases hdet : env.detectOk = true
    · rw [if_pos hdet] at hd
      by_cases hempty : env.silences.isEmpty = true
      · rw [if_pos hempty] at hd
        by_cases hcopy : env.copyOk = true
        · rw [if_pos hcopy] at hd
          simp only [Except.ok.injEq, Prod.mk.injEq] at hd
          exact ⟨1, by simp [expectedTracks, ← hd.1], hd.2.symm⟩
        · rw [if_neg hcopy] at hd; simp at hd
      · rw [if_neg hempty] at hd
        by_cases hprobe : env.probeOk = true
        · rw [if_pos hprobe] at hd
          simp only [Except.ok.injEq] at hd
          rw [exportTracks_eq] at hd
          refine ⟨(buildSegments env.silences env.totalDuration
            options.minSegment).countP env.exportOk, ?_, ?_⟩
          · exact (Prod.ext_iff.mp hd).1.symm
          · exact (Prod.ext_iff.mp hd).2.symm
        · rw [if_neg hprobe] at hd; simp at hd
    · rw [if_neg hdet] at hd; simp at hd
  unfold splitIntoTracks at h
  by_cases htrim : options.introTrimSec > 0
  · rw [if_pos htrim] at h
    by_cases hok : env.trimOk = true
    · rw [if_pos hok] at h
      exact hcore true h
    · rw [if_neg hok] at h; simp at h
  · rw [if_neg htrim] at h
    exact hcore false h

/-- The loop body of `processSides` (`split.js` lines 164-177): each side is
split with `{...options, startIndex: currentIndex}`, its tracks are appended
to `allTracks`, and `currentIndex` becomes the returned `nextIndex`.  An
error from `splitIntoTracks` propagates. -/
def processSidesGo (outDir : String) (options : SplitOptions) :
    List (SplitEnv × String) → List String → ℕ → Except String (List String)
  | [], allTracks, _ => .ok allTracks
  | side :: rest, allTracks, currentIndex =>
    match (splitIntoTracks side.1 side.2 outDir
        { options with startIndex := currentIndex }).result with
    | .error e => .error e
    | .ok r => processSidesGo outDir options rest (allTracks ++ r.1) r.2

/-- `processSides` (`split.js` lines 160-180): `allTracks = []`,
`currentIndex = 1`, then the loop over the side files. -/
def processSides (sideEnvs : List (SplitEnv × String)) (outDir : String)
    (options : SplitOptions) : Except String (List String) :=
  processSidesGo outDir options sideEnvs [] 1

theorem splitOptions_update_update (options : SplitOptions) (a b : ℕ) :
    ({ { options with startIndex := a } with startIndex := b } : SplitOptions) =
      { options with startIndex := b } := rfl

/-- `processSidesGo` never reads `options.startIndex`: it is overridden with
the running counter on every call. -/
theorem processSidesGo_startIndex_irrelevant (outDir : String)
    (options : SplitOptions) (a : ℕ) :
    ∀ (envs : List (SplitEnv × String)) (acc : List String) (i : ℕ),
      processSidesGo outDir { options with startIndex := a } envs acc i =
        processSidesGo outDir options envs acc i := by
  intro envs
  induction envs with
  | nil => intro acc i; rfl
  | cons side rest ih =>
    intro acc i
    simp only [processSidesGo, splitOptions_update_update]
    cases (splitIntoTracks side.1 side.2 outDir
        { options with startIndex := i }).result with
    | error e => rfl
    | ok r => exact ih (acc ++ r.1) r.2

/-- Invariant of the side loop: if the accumulated tracks are the consecutive
paths `1 .. a` and the counter is `1 + a`, any successful completion yields
consecutive paths starting at 1. -/
theorem processSidesGo_shape (outDir : String) (options : SplitOptions) :
    ∀ (envs : List (SplitEnv × String)) (a : ℕ) (ts : List String),
      processSidesGo outDir options envs (expectedTracks outDir 1 a) (1 + a) =
        .ok ts →
      ∃ n, ts = expectedTracks outDir 1 n := by
  intro envs
  induction envs with
  | nil =>
    intro a ts h
    exact ⟨a, by simpa [processSidesGo] using h.symm⟩
  | cons side rest ih =>
    intro a ts h
    simp only [processSidesGo] at h
    cases hr : (splitIntoTracks side.1 side.2 outDir
        { options with startIndex := 1 + a }).result with
    | error e => rw [hr] at h; exact absurd h (by simp)
    | ok r =>
      rw [hr] at h
      change processSidesGo outDir options rest
        (expectedTracks outDir 1 a ++ r.1) r.2 = Except.ok ts at h
      obtain ⟨k, hts, hni⟩ := splitIntoTracks_ok_shape side.1 side.2 outDir
        { options with startIndex := 1 + a } r.1 r.2
        (by rw [hr])
      rw [show ({ options with startIndex := 1 + a } : SplitOptions).startIndex
            = 1 + a from rfl] at hts hni
      rw [hts, hni] at h
      rw [expectedTracks_add outDir a 1 k] at h
      rw [show 1 + a + k = 1 + (a + k) by omega] at h
      exact ih (a + k) ts h

/-- C3 (amended): the Side Sequencer processes sides strictly in order,
threading each side's returned `nextIndex` into the next side's `startIndex`
and concatenating the per-side track lists in processing order; the starting
index is fixed at 1 (`currentIndex = 1`), with any `startIndex` in the shared
options overridden.  Hence for sides `[A, B]` where A yields `n` tracks, B's
tracks are the consecutively numbered paths starting at global index `n + 1`,
and track indices are strictly increasing and never reused across sides. -/
theorem claim_C3_side_sequencer (outDir : String) (options : SplitOptions) :
    (∀ sideEnvs ts, processSides sideEnvs outDir options = .ok ts →
        ∃ n, ts = expectedTracks outDir 1 n) ∧
    (∀ sideEnvs a, processSides sideEnvs outDir options =
        processSides sideEnvs outDir { options with startIndex := a }) ∧
    (∀ (envA : SplitEnv) (pA : String) (envB : SplitEnv) (pB : String)
        (tsA : List String) (niA : ℕ) (tsB : List String) (niB : ℕ),
      (splitIntoTracks envA pA outDir
          { options with startIndex := 1 }).result = .ok (tsA, niA) →
      (splitIntoTracks envB pB outDir
          { options with startIndex := niA }).result = .ok (tsB, niB) →
      processSides [(envA, pA), (envB, pB)] outDir options = .ok (tsA ++ tsB) ∧
        niA = 1 + tsA.length ∧
        tsB = expectedTracks outDir (tsA.length + 1) tsB.length) := by
  refine ⟨?_, ?_, ?_⟩
  · intro sideEnvs ts h
    exact processSidesGo_shape outDir options sideEnvs 0 ts
      (by simpa [expectedTracks] using h)
  · intro sideEnvs a
    exact (processSidesGo_startIndex_irrelevant outDir options a sideEnvs [] 1).symm
  · intro envA pA envB pB tsA niA tsB niB hA hB
    obtain ⟨kA, htsA, hniA⟩ := splitIntoTracks_ok_shape envA pA outDir
      { options with startIndex := 1 } tsA niA hA
    obtain ⟨kB, htsB, hniB⟩ := splitIntoTracks_ok_shape envB pB outDir
      { options with startIndex := niA } tsB niB hB
    rw [show ({ options with startIndex := 1 } : SplitOptions).startIndex = 1
      from rfl] at htsA hniA
    rw [show ({ options with startIndex := niA } : SplitOptions).startIndex = niA
      from rfl] at htsB hniB
    have hlenA : tsA.length = kA := by rw [htsA, expectedTracks_length]
    have hlenB : tsB.length = kB := by rw [htsB, expectedTracks_length]
    refine ⟨?_, by omega, ?_⟩
    · show processSidesGo outDir options [(envA, pA), (envB, pB)] [] 1 = _
      simp only [processSidesGo, hA, hB, List.nil_append]
    · rw [hlenB, htsB, hniA, htsA, expectedTracks_length, Nat.add_comm 1 kA]

/-- C4: with zero silence intervals detected (and the external copy
invocation succeeding), `splitIntoTracks` exports the whole working file as a
single track named from the current starting index and returns
`{tracks: [thatPath], nextIndex: startIndex + 1}`. -/
theorem claim_C4_zero_silence_single_track (env : SplitEnv)
    (inputPath outDir : String) (options : SplitOptions)
    (hsil : env.silences = []) (hdet : env.detectOk = true)
    (hcopy : env.copyOk = true)
    (htrim : options.introTrimSec ≤ 0 ∨ env.trimOk = true) :
    (splitIntoTracks env inputPath outDir options).result =
      .ok ([outDir ++ "/" ++ trackName options.startIndex],
           options.startIndex + 1) := by
  have hcore : ∀ trimmed : Bool,
      (splitDetect env outDir options trimmed).result =
        .ok ([outDir ++ "/" ++ trackName options.startIndex],
             options.startIndex + 1) := by
    intro trimmed
    unfold splitDetect
    rw [if_pos hdet, if_pos (by simp [hsil] : env.silences.isEmpty = true),
      if_pos hcopy]
  unfold splitIntoTracks
  by_cases ht : options.introTrimSec > 0
  · rcases htrim with htrim | htrim
    · exact absurd ht (not_lt.mpr htrim)
    · rw [if_pos ht, if_pos htrim]
      exact hcore true
  · rw [if_neg ht]
    exact hcore false

/-- A concrete environment: every external invocation succeeds and silence
detection finds no intervals. -/
def zeroSilenceEnv : SplitEnv :=
  { trimOk := true, detectOk := true, silences := [], copyOk := true,
    probeOk := true, totalDuration := 0, exportOk := fun _ => true }

/-- Witness for C4 at a concrete environment. -/
theorem claim_C4_zero_silence_single_track_witness :
    zeroSilenceEnv.silences = [] ∧ zeroSilenceEnv.detectOk = true ∧
    zeroSilenceEnv.copyOk = true ∧
    (({} : SplitOptions).introTrimSec ≤ 0 ∨ zeroSilenceEnv.trimOk = true) ∧
    (splitIntoTracks zeroSilenceEnv "in.mp3" "out" {}).result =
      .ok (["out" ++ "/" ++ trackName ({} : SplitOptions).startIndex],
           ({} : SplitOptions).startIndex + 1) :=
  ⟨rfl, rfl, rfl, Or.inr rfl,
    claim_C4_zero_silence_single_track zeroSilenceEnv "in.mp3" "out" {}
      rfl rfl rfl (Or.inr rfl)⟩

/-- Witness for C3: two zero-silence sides; side A yields one track at index
1, so side B's track receives index 2, and the concatenated result is
`[track_001, track_002]`. -/
theorem claim_C3_side_sequencer_witness :
    (splitIntoTracks zeroSilenceEnv "sideA.mp3" "out"
        { ({} : SplitOptions) with startIndex := 1 }).result =
      .ok (["out/track_001.mp3"], 2) ∧
    (splitIntoTracks zeroSilenceEnv "sideB.mp3" "out"
        { ({} : SplitOptions) with startIndex := 2 }).result =
      .ok (["out/track_002.mp3"], 3) ∧
    processSides [(zeroSilenceEnv, "sideA.mp3"), (zeroSilenceEnv, "sideB.mp3")]
        "out" {} = .ok (["out/track_001.mp3"] ++ ["out/track_002.mp3"]) := by
  have hA : (splitIntoTracks zeroSilenceEnv "sideA.mp3" "out"
      { ({} : SplitOptions) with startIndex := 1 }).result =
      .ok (["out/track_001.mp3"], 2) := rfl
  have hB : (splitIntoTracks zeroSilenceEnv "sideB.mp3" "out"
      { ({} : SplitOptions) with startIndex := 2 }).result =
      .ok (["out/track_002.mp3"], 3) := rfl
  exact ⟨hA, hB, ((claim_C3_side_sequencer "out" {}).2.2 zeroSilenceEnv
    "sideA.mp3" zeroSilenceEnv "sideB.mp3" ["out/track_001.mp3"] 2
    ["out/track_002.mp3"] 3 hA hB).1⟩

/-- C3 counterexample: the Side Sequencer does not take a starting index.
With `startIndex := 5` in the shared options, numbering still begins at 1
(`processSides` initializes `currentIndex = 1` and overrides the option), so
the first track is `track_001`, not `track_005`. -/
theorem claim_C3_startIndex_ignored_counterexample :
    processSides [(zeroSilenceEnv, "sideA.mp3")] "out" { startIndex := 5 } =
      .ok ["out/track_001.mp3"] ∧
    ("out/track_001.mp3" : String) ≠ "out/track_005.mp3" := by
  exact ⟨rfl, by decide⟩

/-- C9 (code-bug evidence): the trim step's failure is fatal (first
conjunct, the error propagates), but the trimmed temporary file is NOT
removed on every exit path: with an intro trim configured and zero silences
detected, `splitIntoTracks` returns successfully through the early return of
line 96, which precedes the cleanup of lines 146-148, leaving the trimmed
temp file on disk (third conjunct). -/
theorem claim_C9_trim_fatal_but_temp_file_leaks :
    (splitIntoTracks { zeroSilenceEnv with trimOk := false } "in.mp3" "out"
        { introTrimSec := 3 }).result = .error "Trim failed" ∧
    (splitIntoTracks zeroSilenceEnv "in.mp3" "out"
        { introTrimSec := 3 }).result = .ok (["out/track_001.mp3"], 2) ∧
    (splitIntoTracks zeroSilenceEnv "in.mp3" "out"
        { introTrimSec := 3 }).trimmedLeft = true :=
  ⟨rfl, rfl, rfl⟩

/-! ### Output Validator (`isTracksOutputValid`, cleanup module lines 13-47) -/

/-- The failure reasons the validator can report.  The literal reason
strings of the source are recovered by `Reason.text`; only the numeric
duration formatting of the `too short` message (JS `toFixed(1)`) is
elided. -/
inductive Reason where
  | tracksDirNotFound
  | noMp3Files
  | tooShort (file : String) (duration : Option ℚ)
  | probeFailed (file : String) (msg : String)
  deriving DecidableEq

def Reason.text : Reason → String
  | .tracksDirNotFound => "tracks/ directory not found"
  | .noMp3Files => "no MP3 files in tracks/"
  | .tooShort file _ => file ++ " is too short"
  | .probeFailed file msg => "failed to probe " ++ file ++ ": " ++ msg

/-- `{valid: false, reason}` or `{valid: true, mp3Count}`. -/
inductive ValidationResult where
  | invalid (reason : Reason)
  | valid (mp3Count : ℕ)
  deriving DecidableEq

def ValidationResult.isValid : ValidationResult → Bool
  | .invalid _ => false
  | .valid _ => true

/-- What the validator observes for one item directory: whether the
`tracks/` subdirectory exists, its listing, and the outcome of the ffprobe
duration probe per file — `.error msg` when the probe invocation throws,
`.ok none` when it succeeds but its stdout does not parse as a number
(`parseFloat` gives `NaN`), `.ok (some d)` for a parsed duration `d`. -/
structure TracksDirEnv where
  tracksDirExists : Bool
  files : List String
  probe : String → Except String (Option ℚ)

/-- `f.toLowerCase().endsWith('.mp3')` (cleanup module line 23), written on
the underlying character list so that it evaluates by reduction. -/
def isMp3 (f : String) : Bool :=
  List.isSuffixOf ".mp3".data (f.data.map Char.toLower)

/-- JS `isNaN(duration) || duration < 10` (line 38): `parseFloat` output
that is not a number always counts as too short. -/
def durationTooShort : Option ℚ → Bool
  | none => true
  | some d => decide (d < 10)

/-- The probe loop (lines 30-44): each MP3 is probed in order and the first
failure aborts the whole validation with its reason. -/
def checkDurations (probe : String → Except String (Option ℚ)) :
    List String → Option Reason
  | [] => none
  | mp3 :: rest =>
    match probe mp3 with
    | .error msg => some (.probeFailed mp3 msg)
    | .ok d =>
      if durationTooShort d then some (.tooShort mp3 d)
      else checkDurations probe rest

/-- `isTracksOutputValid` (cleanup module lines 13-47). -/
def isTracksOutputValid (env : TracksDirEnv) : ValidationResult :=
  if !env.tracksDirExists then .invalid .tracksDirNotFound
  else
    let mp3Files := env.files.filter isMp3
    if mp3Files.isEmpty then .invalid .noMp3Files
    else
      match checkDurations env.probe mp3Files with
      | some r => .invalid r
      | none => .valid mp3Files.length

/-- The reason the probe loop reports for a file it rejects. -/
def reasonFor (probe : String → Except String (Option ℚ)) (f : String) : Reason :=
  match probe f with
  | .error msg => .probeFailed f msg
  | .ok d => .tooShort f d

theorem isTracksOutputValid_def (env : TracksDirEnv) :
    isTracksOutputValid env =
      if !env.tracksDirExists then .invalid .tracksDirNotFound
      else if (List.filter isMp3 env.files).isEmpty then .invalid .noMp3Files
      else
        match checkDurations env.probe (List.filter isMp3 env.files) with
        | some r => .invalid r
        | none => .valid (List.filter isMp3 env.files).length := rfl

theorem checkDurations_cons (probe : String → Except String (Option ℚ))
    (mp3 : String) (rest : List String) :
    checkDurations probe (mp3 :: rest) =
      match probe mp3 with
      | .error msg => some (.probeFailed mp3 msg)
      | .ok d =>
        if durationTooShort d then some (.tooShort mp3 d)
        else checkDurations probe rest := rfl

theorem checkDurations_none_iff (probe : String → Except String (Option ℚ)) :
    ∀ l : List String, checkDurations probe l = none ↔
      ∀ f ∈ l, ∃ q, probe f = .ok (some q) ∧ 10 ≤ q := by
  intro l
  induction l with
  | nil => simp [checkDurations]
  | cons mp3 rest ih =>
    rw [checkDurations_cons]
    cases hp : probe mp3 with
    | error msg =>
      simp only []
      constructor
      · intro h; exact absurd h (by simp)
      · intro h
        obtain ⟨q, hq, -⟩ := h mp3 (List.mem_cons_self mp3 rest)
        rw [hp] at hq
        exact absurd hq (by simp)
    | ok d =>
      simp only []
      by_cases hshort : durationTooShort d = true
      · rw [if_pos hshort]
        constructor
        · intro h; exact absurd h (by simp)
        · intro h
          obtain ⟨q, hq, hge⟩ := h mp3 (List.mem_cons_self mp3 rest)
          rw [hp] at hq
          have hd : d = some q := by simpa using hq
          subst hd
          simp only [durationTooShort, decide_eq_true_eq] at hshort
          linarith
      · rw [if_neg hshort, ih]
        constructor
        · intro h f hf
          rcases List.mem_cons.mp hf with rfl | hfr
          · cases d with
            | none => simp [durationTooShort] at hshort
            | some q =>
              simp only [durationTooShort, decide_eq_true_eq] at hshort
              exact ⟨q, hp, by linarith⟩
          · exact h f hfr
        · intro h f hf
          exact h f (List.mem_cons_of_mem mp3 hf)

theorem checkDurations_first_bad (probe : String → Except String (Option ℚ))
    (f : String) (l2 : List String)
    (hbad : ∀ q, probe f = .ok (some q) → q < 10) :
    ∀ l1 : List String,
      (∀ g ∈ l1, ∃ q, probe g = .ok (some q) ∧ 10 ≤ q) →
      checkDurations probe (l1 ++ f :: l2) = some (reasonFor probe f) := by
  intro l1
  induction l1 with
  | nil =>
    intro _
    rw [List.nil_append, checkDurations_cons]
    unfold reasonFor
    cases hp : probe f with
    | error msg => simp only []
    | ok d =>
      simp only []
      have hshort : durationTooShort d = true := by
        cases d with
        | none => rfl
        | some q => simpa [durationTooShort] using hbad q hp
      rw [if_pos hshort]
  | cons g l1' ih =>
    intro hgood
    obtain ⟨q, hq, hge⟩ := hgood g (List.mem_cons_self g l1')
    rw [List.cons_append, checkDurations_cons, hq]
    simp only []
    rw [if_neg (by simp only [durationTooShort, decide_eq_true_eq]; intro hlt; linarith)]
    exact ih (fun g' hg' => hgood g' (List.mem_cons_of_mem g hg'))

/-- C5: the Output Validator checks in order and short-circuits on the first
failure: a missing `tracks/` directory yields the literal reason
`tracks/ directory not found`; an existing directory with no MP3 file is
invalid; the result is `valid n` exactly when the directory exists, there is
at least one MP3, `n` is the MP3 count, and every MP3 probes to a parsed
duration of at least 10 seconds; and the first file whose probe errs or
whose duration is missing/short determines the reported reason regardless of
the files after it (fail-fast, not aggregate). -/
theorem claim_C5_output_validator (env : TracksDirEnv) :
    (env.tracksDirExists = false →
      isTracksOutputValid env = .invalid .tracksDirNotFound ∧
      Reason.text .tracksDirNotFound = "tracks/ directory not found") ∧
    (env.tracksDirExists = true → env.files.filter isMp3 = [] →
      isTracksOutputValid env = .invalid .noMp3Files) ∧
    (∀ n, isTracksOutputValid env = .valid n ↔
      env.tracksDirExists = true ∧ env.files.filter isMp3 ≠ [] ∧
      n = (env.files.filter isMp3).length ∧
      ∀ f ∈ env.files.filter isMp3, ∃ q, env.probe f = .ok (some q) ∧ 10 ≤ q) ∧
    (∀ l1 f l2, env.tracksDirExists = true →
      env.files.filter isMp3 = l1 ++ f :: l2 →
      (∀ g ∈ l1, ∃ q, env.probe g = .ok (some q) ∧ 10 ≤ q) →
      (∀ q, env.probe f = .ok (some q) → q < 10) →
      isTracksOutputValid env = .invalid (reasonFor env.probe f)) := by
  refine ⟨?_, ?_, ?_, ?_⟩
  · intro h
    exact ⟨by simp [isTracksOutputValid, h], rfl⟩
  · intro h hempty
    simp [isTracksOutputValid, h, hempty]
  · intro n
    rw [isTracksOutputValid_def]
    by_cases hdir : env.tracksDirExists = true
    · rw [if_neg (by simp [hdir])]
      by_cases hempty : (List.filter isMp3 env.files).isEmpty = true
      · rw [if_pos hempty]
        rw [List.isEmpty_iff] at hempty
        constructor
        · intro h; exact absurd h (by simp)
        · rintro ⟨-, hne, -, -⟩
          exact absurd hempty hne
      · rw [if_neg hempty]
        rw [List.isEmpty_iff] at hempty
        cases hck : checkDurations env.probe (List.filter isMp3 env.files) with
        | some r =>
          simp only []
          constructor
          · intro h; exact absurd h (by simp)
          · rintro ⟨-, -, -, hall⟩
            rw [(checkDurations_none_iff env.probe _).mpr hall] at hck
            exact absurd hck (by simp)
        | none =>
          simp only []
          constructor
          · intro h
            have hn : (List.filter isMp3 env.files).length = n := by
              simpa using h
            exact ⟨hdir, hempty, hn.symm,
              (checkDurations_none_iff env.probe _).mp hck⟩
          · rintro ⟨-, -, hn, -⟩
            rw [hn]
    · have hdf : env.tracksDirExists = false := by simpa using hdir
      rw [if_pos (by simp [hdf])]
      constructor
      · intro h; exact absurd h (by simp)
      · rintro ⟨hd, -, -, -⟩
        exact absurd hd hdir
  · intro l1 f l2 hdir hsplit hgood hbad
    rw [isTracksOutputValid_def]
    rw [if_neg (by rw [hdir]; simp)]
    have hne : (List.filter isMp3 env.files).isEmpty = false := by
      rw [hsplit]
      simp
    rw [if_neg (by rw [hne]; simp)]
    rw [hsplit, checkDurations_first_bad env.probe f l2 hbad l1 hgood]

/-- C10: a probe whose output does not parse as a number (`parseFloat`
gives `NaN`) makes the validator classify the directory as invalid with the
`too short` reason for that file — it neither accepts the file nor raises —
and a file contributes to a valid verdict only when its probed duration is a
parsed number of at least 10 seconds. -/
theorem claim_C10_nan_probe_is_too_short (env : TracksDirEnv) :
    (∀ l1 f l2, env.tracksDirExists = true →
      env.files.filter isMp3 = l1 ++ f :: l2 →
      (∀ g ∈ l1, ∃ q, env.probe g = .ok (some q) ∧ 10 ≤ q) →
      env.probe f = .ok none →
      isTracksOutputValid env = .invalid (.tooShort f none)) ∧
    (∀ n, isTracksOutputValid env = .valid n →
      ∀ f ∈ env.files.filter isMp3, ∃ q, env.probe f = .ok (some q) ∧ 10 ≤ q) := by
  constructor
  · intro l1 f l2 hdir hsplit hgood hnan
    rw [isTracksOutputValid_def]
    rw [if_neg (by rw [hdir]; simp)]
    have hne : (env.files.filter isMp3).isEmpty = false := by
      rw [hsplit]; simp [List.isEmpty_iff]
    rw [if_neg (by simp [hne])]
    have hbad : ∀ q, env.probe f = .ok (some q) → q < 10 := by
      intro q hq
      rw [hnan] at hq
      exact absurd hq (by simp)
    rw [hsplit, checkDurations_first_bad env.probe f l2 hbad l1 hgood]
    simp [reasonFor, hnan]
  · intro n hvalid
    rw [isTracksOutputValid_def] at hvalid
    by_cases hdir : env.tracksDirExists = true
    · rw [if_neg (by simp [hdir])] at hvalid
      by_cases hempty : (env.files.filter isMp3).isEmpty = true
      · rw [if_pos hempty] at hvalid
        exact absurd hvalid (by simp)
      · rw [if_neg hempty] at hvalid
        cases hck : checkDurations env.probe (env.files.filter isMp3) with
        | some r => rw [hck] at hvalid; exact absurd hvalid (by simp)
        | none => exact (checkDurations_none_iff env.probe _).mp hck
    · rw [if_pos (by simp [Bool.not_eq_true] at hdir ⊢; exact hdir)] at hvalid
      exact absurd hvalid (by simp)

/-- A tracks directory whose single MP3 probes to 30 seconds. -/
def validatorEnvOk : TracksDirEnv :=
  { tracksDirExists := true, files := ["track_001.mp3"],
    probe := fun _ => .ok (some 30) }

/-- An item directory with no tracks subdirectory. -/
def validatorEnvNoDir : TracksDirEnv :=
  { tracksDirExists := false, files := [], probe := fun _ => .error "no" }

/-- A tracks directory whose single MP3 probes successfully but the output
does not parse as a number. -/
def validatorEnvNaN : TracksDirEnv :=
  { tracksDirExists := true, files := ["track_001.mp3"],
    probe := fun _ => .ok none }

/-- Witness for C5: the missing-directory reason and a valid directory. -/
theorem claim_C5_output_validator_witness :
    validatorEnvNoDir.tracksDirExists = false ∧
    isTracksOutputValid validatorEnvNoDir = .invalid .tracksDirNotFound ∧
    Reason.text .tracksDirNotFound = "tracks/ directory not found" ∧
    isTracksOutputValid validatorEnvOk = .valid 1 := by
  have hnd := (claim_C5_output_validator validatorEnvNoDir).1 rfl
  have hfilter : List.filter isMp3 validatorEnvOk.files = ["track_001.mp3"] := rfl
  have hok : isTracksOutputValid validatorEnvOk = .valid 1 := by
    refine ((claim_C5_output_validator validatorEnvOk).2.2.1 1).mpr
      ⟨rfl, ?_, ?_, ?_⟩
    · rw [hfilter]; simp
    · rw [hfilter]; rfl
    · intro f hf
      rw [hfilter] at hf
      have hfeq : f = "track_001.mp3" := by simpa using hf
      subst hfeq
      exact ⟨30, rfl, by norm_num⟩
  exact ⟨rfl, hnd.1, hnd.2, hok⟩

/-- Witness for C10: an unparsable probe output yields the too-short reason. -/
theorem claim_C10_nan_probe_is_too_short_witness :
    validatorEnvNaN.tracksDirExists = true ∧
    List.filter isMp3 validatorEnvNaN.files = [] ++ "track_001.mp3" :: [] ∧
    validatorEnvNaN.probe "track_001.mp3" = .ok none ∧
    isTracksOutputValid validatorEnvNaN =
      .invalid (.tooShort "track_001.mp3" none) :=
  ⟨rfl, rfl, rfl,
    (claim_C10_nan_probe_is_too_short validatorEnvNaN).1 [] "track_001.mp3" []
      rfl rfl (by simp) rfl⟩

/-! ### Resume Planner (`checkSkipStatus`, cleanup module lines 299-317) -/

/-- The record returned by `checkSkipStatus`. -/
structure SkipStatus where
  skip : Bool
  reason : String
  needsDownload : Bool
  needsSplit : Bool
  deriving DecidableEq

/-- Modelled from the spec: the `ResumeVerdict` names of §3 (`Skip`,
`NeedsFullProcessing`, `NeedsSplitOnly`). -/
inductive ResumeVerdict where
  | Skip
  | NeedsFullProcessing
  | NeedsSplitOnly
  deriving DecidableEq

/-- Modelled from the spec: the verdict a returned `SkipStatus` denotes —
`Skip` when work can be skipped, `NeedsFullProcessing` when a download is
required, `NeedsSplitOnly` otherwise. -/
def resumeVerdict (s : SkipStatus) : ResumeVerdict :=
  if s.skip then .Skip
  else if s.needsDownload then .NeedsFullProcessing
  else .NeedsSplitOnly

/-- `checkSkipStatus` (cleanup module lines 299-317).  The source computes
exactly two facts about on-disk state — `isTracksOutputValid(itemDir)` and
`fs.pathExists(itemDir/raw)` — and returns a value depending on nothing
else; the two facts are the parameters here. -/
def checkSkipStatus (tracksValid : ValidationResult) (hasRaw : Bool) :
    SkipStatus :=
  if tracksValid.isValid then
    { skip := true, reason := "tracks output valid",
      needsDownload := false, needsSplit := false }
  else if !hasRaw then
    { skip := false, reason := "needs full processing",
      needsDownload := true, needsSplit := true }
  else
    { skip := false, reason := "needs split",
      needsDownload := false, needsSplit := true }

/-- C6: the Resume Planner is a pure function of the two on-disk facts:
`Skip` iff the validator reports valid, else `NeedsFullProcessing` iff the
raw directory is missing and `NeedsSplitOnly` iff it is present, with the
corresponding flags and reason strings. -/
theorem claim_C6_resume_planner (v : ValidationResult) (hasRaw : Bool) :
    (resumeVerdict (checkSkipStatus v hasRaw) =
      if v.isValid then .Skip
      else if hasRaw then .NeedsSplitOnly else .NeedsFullProcessing) ∧
    (checkSkipStatus v hasRaw).skip = v.isValid ∧
    (checkSkipStatus v hasRaw).needsDownload = (!v.isValid && !hasRaw) ∧
    (checkSkipStatus v hasRaw).needsSplit = !v.isValid ∧
    (checkSkipStatus v hasRaw).reason =
      (if v.isValid then "tracks output valid"
       else if hasRaw then "needs split" else "needs full processing") := by
  cases hv : v.isValid <;> cases hasRaw <;>
    simp [checkSkipStatus, resumeVerdict, hv]

/-! ### Trash-Based Reclaimer (cleanup module lines 67-148)

The filesystem is modelled as a list of items: pairs of a path (the root of
a file or directory subtree moved as a whole) and that subtree's total
recursive size in bytes.  A path exists when some item lies at or below it;
`fs.move` re-roots a subtree, modelled by replacing the moved items with one
item of their aggregate size at the destination (sizes are what
`getDirSize`/`fs.stat` report). -/

abbrev FS := List (String × ℕ)

/-- `e` lies at or below the path `p`. -/
def underPath (p e : String) : Bool :=
  e == p || List.isPrefixOf (p ++ "/").data e.data

/-- `fs.pathExists(p)`. -/
def pathExists (fs : FS) (p : String) : Bool :=
  fs.any (fun e => underPath p e.1)

/-- The total recursive size below `p` (`getDirSize` / `fs.stat().size`). -/
def statSize (fs : FS) (p : String) : ℕ :=
  ((fs.filter (fun e => underPath p e.1)).map (fun e => e.2)).sum

/-- `fs.remove(p)`: delete the subtree below `p`. -/
def removeTree (fs : FS) (p : String) : FS :=
  fs.filter (fun e => !underPath p e.1)

/-- `path.basename`: the characters after the last `/`. -/
def basename (p : String) : String :=
  String.mk (p.data.foldl (fun acc c => if c = '/' then [] else acc ++ [c]) [])

/-- The trash destination
`<trashBaseDir>/<identifier>/<timestamp>/<basename srcPath>` (line 74); the
timestamp (`new Date().toISOString()` with `:`/`.` replaced) is a
parameter. -/
def trashDest (trashBaseDir identifier timestamp srcPath : String) : String :=
  trashBaseDir ++ "/" ++ identifier ++ "/" ++ timestamp ++ "/" ++
    basename srcPath

/-- `moveToTrash` (cleanup module lines 67-96): a missing source is a no-op
returning null; dry-run touches nothing and returns null; otherwise the
source subtree is moved (not copied) to the computed destination after
parent-directory creation, with `{overwrite: false}` — when the destination
already exists `fs.move` rejects, the catch logs and returns null leaving
the filesystem unchanged. -/
def moveToTrash (fs : FS) (srcPath trashBaseDir identifier timestamp : String)
    (dryRun : Bool) : FS × Option String :=
  if !pathExists fs srcPath then (fs, none)
  else
    let trashPath := trashDest trashBaseDir identifier timestamp srcPath
    if dryRun then (fs, none)
    else if pathExists fs trashPath then (fs, none)
    else ((trashPath, statSize fs srcPath) :: removeTree fs srcPath,
          some trashPath)

/-- `purgeTrash` (cleanup module lines 104-125): missing trash or dry-run
does nothing and reports false, otherwise the subtree is deleted
permanently. -/
def purgeTrash (fs : FS) (trashPath : String) (dryRun : Bool) : FS × Bool :=
  if !pathExists fs trashPath then (fs, false)
  else if dryRun then (fs, false)
  else (removeTree fs trashPath, true)

theorem pathExists_false_forall {fs : FS} {p : String}
    (h : pathExists fs p = false) : ∀ e ∈ fs, underPath p e.1 = false := by
  intro e he
  have hall := List.any_eq_false.mp h
  have := hall e he
  revert this
  cases underPath p e.1 <;> simp

theorem pathExists_removeTree (fs : FS) (p : String) :
    pathExists (removeTree fs p) p = false := by
  apply List.any_eq_false.mpr
  intro e he
  have := (List.mem_filter.mp he).2
  simp at this
  simp [this]

theorem underPath_self (p : String) : underPath p p = true := by
  simp [underPath]

/-- C8: the Trash-Based Reclaimer's move: a missing source is a no-op
reporting nothing moved; dry-run performs zero filesystem mutations and
returns a null move result; a destination collision is an error (nothing
overwritten, filesystem unchanged, null returned); and otherwise the source
is moved to `<trashRoot>/<identifier>/<timestamp>/<basename>` — afterwards
the source path no longer exists and an item of identical total size exists
at the computed destination. -/
theorem claim_C8_move_to_trash (fs : FS)
    (srcPath trashBaseDir identifier timestamp : String) (dryRun : Bool) :
    (pathExists fs srcPath = false →
      moveToTrash fs srcPath trashBaseDir identifier timestamp dryRun =
        (fs, none)) ∧
    (dryRun = true →
      moveToTrash fs srcPath trashBaseDir identifier timestamp dryRun =
        (fs, none)) ∧
    (pathExists fs srcPath = true → dryRun = false →
      pathExists fs (trashDest trashBaseDir identifier timestamp srcPath) = true →
      moveToTrash fs srcPath trashBaseDir identifier timestamp dryRun =
        (fs, none)) ∧
    (pathExists fs srcPath = true → dryRun = false →
      pathExists fs (trashDest trashBaseDir identifier timestamp srcPath) = false →
      underPath srcPath (trashDest trashBaseDir identifier timestamp srcPath) = false →
      (moveToTrash fs srcPath trashBaseDir identifier timestamp dryRun).2 =
        some (trashDest trashBaseDir identifier timestamp srcPath) ∧
      pathExists
        (moveToTrash fs srcPath trashBaseDir identifier timestamp dryRun).1
        srcPath = false ∧
      pathExists
        (moveToTrash fs srcPath trashBaseDir identifier timestamp dryRun).1
        (trashDest trashBaseDir identifier timestamp srcPath) = true ∧
      statSize
        (moveToTrash fs srcPath trashBaseDir identifier timestamp dryRun).1
        (trashDest trashBaseDir identifier timestamp srcPath) =
        statSize fs srcPath) := by
  refine ⟨?_, ?_, ?_, ?_⟩
  · intro h
    simp [moveToTrash, h]
  · intro h
    subst h
    by_cases hsrc : pathExists fs srcPath = true <;>
      simp [moveToTrash, hsrc]
  · intro h1 h2 h3
    subst h2
    simp [moveToTrash, h1, h3]
  · intro h1 h2 h3 hdisj
    subst h2
    have hmove : moveToTrash fs srcPath trashBaseDir identifier timestamp false =
        ((trashDest trashBaseDir identifier timestamp srcPath,
          statSize fs srcPath) :: removeTree fs srcPath,
         some (trashDest trashBaseDir identifier timestamp srcPath)) := by
      simp [moveToTrash, h1, h3]
    rw [hmove]
    refine ⟨rfl, ?_, ?_, ?_⟩
    · show List.any _ _ = false
      rw [List.any_cons, hdisj]
      simp only [Bool.false_or]
      exact pathExists_removeTree fs srcPath
    · show List.any _ _ = true
      rw [List.any_cons]
      rw [underPath_self]
      rfl
    · show ((List.filter _ _).map _).sum = _
      rw [List.filter_cons_of_pos (by simp [underPath_self])]
      have hnil : List.filter
          (fun e => underPath
            (trashDest trashBaseDir identifier timestamp srcPath) e.1)
          (removeTree fs srcPath) = [] := by
        apply List.filter_eq_nil_iff.mpr
        intro e he
        have hefs : e ∈ fs := List.mem_of_mem_filter he
        have := pathExists_false_forall h3 e hefs
        simp [this]
      rw [hnil]
      simp

/-- A concrete one-item filesystem for the C8 witness. -/
def fsRaw : FS := [("out/id/raw", 100)]

/-- Witness for C8 on a one-item filesystem. -/
theorem claim_C8_move_to_trash_witness :
    pathExists fsRaw "out/id/raw" = true ∧
    pathExists fsRaw (trashDest "out/.trash" "id" "TS" "out/id/raw") = false ∧
    underPath "out/id/raw" (trashDest "out/.trash" "id" "TS" "out/id/raw") = false ∧
    (moveToTrash fsRaw "out/id/raw" "out/.trash" "id" "TS" false).2 =
      some (trashDest "out/.trash" "id" "TS" "out/id/raw") ∧
    pathExists (moveToTrash fsRaw "out/id/raw" "out/.trash" "id" "TS" false).1
      "out/id/raw" = false ∧
    pathExists (moveToTrash fsRaw "out/id/raw" "out/.trash" "id" "TS" false).1
      (trashDest "out/.trash" "id" "TS" "out/id/raw") = true ∧
    statSize (moveToTrash fsRaw "out/id/raw" "out/.trash" "id" "TS" false).1
      (trashDest "out/.trash" "id" "TS" "out/id/raw") =
      statSize fsRaw "out/id/raw" := by
  have h := (claim_C8_move_to_trash fsRaw "out/id/raw" "out/.trash" "id" "TS"
    false).2.2.2 (by decide) rfl (by decide) (by decide)
  exact ⟨by decide, by decide, by decide, h.1, h.2.1, h.2.2.1, h.2.2.2⟩

/-! ### Gated cleanup (`maybeCleanupItem`, cleanup module lines 163-251) -/

/-- The options object of `maybeCleanupItem` with the source's defaults. -/
structure CleanupOptions where
  itemDir : String
  identifier : String
  cleanup : Bool := false
  cleanupLevel : String := "all"
  dryRun : Bool := false
  trashDir : String := "out/.trash"
  purgeTrash : Bool := false
  failed : Bool := false

/-- The cleanup report (lines 175-182). -/
structure CleanupReport where
  enabled : Bool
  level : String
  movedToTrash : List String
  purged : Bool
  savedBytes : ℕ
  skipped : Option String
  deriving DecidableEq

/-- What `maybeCleanupItem` observes: the tracks directory the validator
re-checks, the filesystem, and the timestamp used for trash paths. -/
structure CleanupEnv where
  tracksEnv : TracksDirEnv
  fs : FS
  timestamp : String

/-- The report before any branch runs (lines 175-182). -/
def initialReport (opts : CleanupOptions) : CleanupReport :=
  { enabled := opts.cleanup, level := opts.cleanupLevel, movedToTrash := [],
    purged := false, savedBytes := 0, skipped := none }

/-- The candidate directories to reclaim (lines 211-220): for any of the
levels `raw`/`tracks`/`all`, just the raw directory when it exists. -/
def cleanupCandidates (opts : CleanupOptions) (fs : FS) :
    List (String × String × ℕ) :=
  let rawDir := opts.itemDir ++ "/raw"
  if (opts.cleanupLevel == "raw" || opts.cleanupLevel == "tracks"
      || opts.cleanupLevel == "all") && pathExists fs rawDir then
    [(rawDir, "raw", statSize fs rawDir)]
  else []

/-- One iteration of the move loop (lines 231-237). -/
def cleanupMoveStep (opts : CleanupOptions) (timestamp : String)
    (acc : CleanupReport × FS) (item : String × String × ℕ) :
    CleanupReport × FS :=
  let mv := moveToTrash acc.2 item.1 opts.trashDir opts.identifier timestamp
    opts.dryRun
  match mv.2 with
  | some _ =>
    let report' := { acc.1 with
      movedToTrash := acc.1.movedToTrash ++ [item.2.1],
      savedBytes := acc.1.savedBytes + item.2.2 }
    (report', mv.1)
  | none => (acc.1, mv.1)

/-- The part of `maybeCleanupItem` past all gates (lines 211-250): compute
the candidates, move each to trash, then purge the identifier's trash
subtree when requested, something was moved, and not in dry-run. -/
def runCleanup (opts : CleanupOptions) (env : CleanupEnv) :
    CleanupReport × FS :=
  let toClean := cleanupCandidates opts env.fs
  if toClean.isEmpty then
    ({ initialReport opts with skipped := some "nothing to clean" }, env.fs)
  else
    let moved := toClean.foldl (cleanupMoveStep opts env.timestamp)
      (initialReport opts, env.fs)
    if opts.purgeTrash && !moved.1.movedToTrash.isEmpty && !opts.dryRun then
      let pr := purgeTrash moved.2 (opts.trashDir ++ "/" ++ opts.identifier)
        opts.dryRun
      ({ moved.1 with purged := pr.2 }, pr.1)
    else moved

/-- `maybeCleanupItem` (cleanup module lines 163-251): skip when cleanup is
disabled, when the item failed, or when the re-validation of the tracks
output is invalid; otherwise reclaim the candidates. -/
def maybeCleanupItem (opts : CleanupOptions) (env : CleanupEnv) :
    CleanupReport × FS :=
  if !opts.cleanup then
    ({ initialReport opts with skipped := some "cleanup disabled" }, env.fs)
  else if opts.failed then
    ({ initialReport opts with skipped := some "item failed" }, env.fs)
  else
    match isTracksOutputValid env.tracksEnv with
    | .invalid r => ({ initialReport opts with skipped := some r.text }, env.fs)
    | .valid _ => runCleanup opts env

theorem cleanupCandidates_cases (opts : CleanupOptions) (fs : FS) :
    cleanupCandidates opts fs = [] ∨
      cleanupCandidates opts fs =
        [(opts.itemDir ++ "/raw", "raw", statSize fs (opts.itemDir ++ "/raw"))] := by
  unfold cleanupCandidates
  by_cases hc : ((opts.cleanupLevel == "raw" || opts.cleanupLevel == "tracks"
      || opts.cleanupLevel == "all") && pathExists fs (opts.itemDir ++ "/raw")) = true
  · right; simp [hc]
  · left; simp [hc]

theorem runCleanup_shape (opts : CleanupOptions) (env : CleanupEnv) :
    ((runCleanup opts env).1.movedToTrash = [] ∨
      (runCleanup opts env).1.movedToTrash = ["raw"]) ∧
    ((runCleanup opts env).1.purged = true →
      opts.purgeTrash = true ∧
      (runCleanup opts env).1.movedToTrash = ["raw"] ∧
      opts.dryRun = false) := by
  unfold runCleanup
  rcases cleanupCandidates_cases opts env.fs with hc | hc <;> rw [hc]
  · simp [initialReport]
  · simp only [List.isEmpty_cons, if_neg (by simp : ¬False), List.foldl_cons,
      List.foldl_nil, Bool.false_eq_true, if_false]
    cases hm : (moveToTrash env.fs (opts.itemDir ++ "/raw") opts.trashDir
        opts.identifier env.timestamp opts.dryRun).2 with
    | some p =>
      simp only [cleanupMoveStep, hm, initialReport, List.nil_append]
      by_cases hp : (opts.purgeTrash && !(["raw"] : List String).isEmpty
          && !opts.dryRun) = true
      · rw [if_pos hp]
        simp only [Bool.and_eq_true, Bool.not_eq_true'] at hp
        refine ⟨Or.inr rfl, fun _ => ⟨hp.1.1, rfl, hp.2⟩⟩
      · rw [if_neg hp]
        exact ⟨Or.inr rfl, fun h => absurd h (by simp)⟩
    | none =>
      simp only [cleanupMoveStep, hm, initialReport]
      rw [if_neg (by simp)]
      exact ⟨Or.inl rfl, fun h => absurd h (by simp)⟩

/-- C7: `maybeCleanupItem` moves nothing and purges nothing — filesystem
unchanged, a skip reason recorded — when cleanup is disabled, the run
failed, or the re-validated tracks output is invalid; when it runs, the only
reclaim candidate is the raw directory regardless of the configured level
(`movedToTrash` is at most `["raw"]`), and the permanent purge happens only
if purging was requested, something was actually moved, and dry-run is
off. -/
theorem claim_C7_gated_cleanup (opts : CleanupOptions) (env : CleanupEnv) :
    (opts.cleanup = false →
      maybeCleanupItem opts env =
        ({ initialReport opts with skipped := some "cleanup disabled" },
         env.fs)) ∧
    (opts.cleanup = true → opts.failed = true →
      maybeCleanupItem opts env =
        ({ initialReport opts with skipped := some "item failed" }, env.fs)) ∧
    (∀ r, opts.cleanup = true → opts.failed = false →
      isTracksOutputValid env.tracksEnv = .invalid r →
      maybeCleanupItem opts env =
        ({ initialReport opts with skipped := some r.text }, env.fs)) ∧
    ((maybeCleanupItem opts env).1.movedToTrash = [] ∨
      (maybeCleanupItem opts env).1.movedToTrash = ["raw"]) ∧
    ((maybeCleanupItem opts env).1.purged = true →
      opts.purgeTrash = true ∧
      (maybeCleanupItem opts env).1.movedToTrash = ["raw"] ∧
      opts.dryRun = false) := by
  have hshape : ((maybeCleanupItem opts env).1.movedToTrash = [] ∧
      (maybeCleanupItem opts env).1.purged = false) ∨
      maybeCleanupItem opts env = runCleanup opts env := by
    unfold maybeCleanupItem
    cases hcl : opts.cleanup with
    | false => left; simp [initialReport]
    | true =>
      cases hf : opts.failed with
      | true => left; simp [initialReport]
      | false =>
        cases hv : isTracksOutputValid env.tracksEnv with
        | invalid r => left; simp [initialReport]
        | valid n => right; simp
  refine ⟨?_, ?_, ?_, ?_, ?_⟩
  · intro h
    simp [maybeCleanupItem, h]
  · intro h1 h2
    simp [maybeCleanupItem, h1, h2]
  · intro r h1 h2 hv
    simp [maybeCleanupItem, h1, h2, hv]
  · rcases hshape with ⟨hm, -⟩ | heq
    · exact Or.inl hm
    · rw [heq]
      exact (runCleanup_shape opts env).1
  · rcases hshape with ⟨-, hp⟩ | heq
    · intro h
      rw [hp] at h
      exact absurd h (by simp)
    · rw [heq]
      exact (runCleanup_shape opts env).2

/-- Concrete cleanup environment: a valid tracks output over `fsRaw`. -/
def cleanupEnvW : CleanupEnv :=
  { tracksEnv := validatorEnvOk, fs := fsRaw, timestamp := "TS" }

/-- Concrete cleanup environment whose tracks output is invalid. -/
def cleanupEnvInvalid : CleanupEnv :=
  { tracksEnv := validatorEnvNaN, fs := fsRaw, timestamp := "TS" }

/-- Options with cleanup left at its disabled default. -/
def cleanupOptsDisabled : CleanupOptions :=
  { itemDir := "out/id", identifier := "id" }

/-- Options with cleanup enabled. -/
def cleanupOptsOn : CleanupOptions :=
  { itemDir := "out/id", identifier := "id", cleanup := true }

/-- Witness for C7: the disabled gate and the invalid-output gate. -/
theorem claim_C7_gated_cleanup_witness :
    cleanupOptsDisabled.cleanup = false ∧
    maybeCleanupItem cleanupOptsDisabled cleanupEnvW =
      ({ initialReport cleanupOptsDisabled with
         skipped := some "cleanup disabled" }, cleanupEnvW.fs) ∧
    isTracksOutputValid cleanupEnvInvalid.tracksEnv =
      .invalid (.tooShort "track_001.mp3" none) ∧
    maybeCleanupItem cleanupOptsOn cleanupEnvInvalid =
      ({ initialReport cleanupOptsOn with
         skipped := some (Reason.text (.tooShort "track_001.mp3" none)) },
       cleanupEnvInvalid.fs) := by
  have hv : isTracksOutputValid cleanupEnvInvalid.tracksEnv =
      .invalid (.tooShort "track_001.mp3" none) := rfl
  exact ⟨rfl, (claim_C7_gated_cleanup cleanupOptsDisabled cleanupEnvW).1 rfl,
    hv, (claim_C7_gated_cleanup cleanupOptsOn cleanupEnvInvalid).2.2.1
      (.tooShort "track_001.mp3" none) rfl rfl hv⟩

end NivenJazz
